import Mathlib

/-!
# Verification of the dynamo-lite experiment harness

Shallow embedding, in Lean 4, of the workload-generation and
consistency-probing engine of the `dynlite-experiments` Python package
(`src/client.py`, `src/config.py`, `src/experiments/{perf_ycsb,sac,
staleness,anti_entropy,chaos}.py`), together with proofs and refutations
of the specified properties.

Python numeric conventions are modelled as follows.  Wall-clock readings
and latencies are rationals (`ℚ`); `int(x)` is truncation toward zero
(`pyInt`); Python list indexing, including its negative-index wraparound
and its `IndexError`, is `pyGet`; `int(f * n)` for the literals
`f = 0.5, 0.95, 0.99` is the exact rational floor `n / 2`,
`19 * n / 20 - …`, `99 * n / 100 - …` (for every list size reachable in
memory the IEEE-754 double product rounds to the same integer, so the
exact-rational model is faithful).  Byte strings are `List ℕ`; exceptions
are `Except PyErr`.
-/

/-- Python errors/exceptions raised by the harness's request paths. -/
inductive PyErr where
  | transport : PyErr
  | httpStatus : ℕ → PyErr
  | jsonError : PyErr
  | decodeError : PyErr
deriving DecidableEq

/-- Python `int(x)` — truncation toward zero. -/
def pyInt (x : ℚ) : ℤ :=
  if 0 ≤ x then ⌊x⌋ else -⌊-x⌋

/-- Python list indexing `l[i]`: non-negative indices from the front,
negative indices from the back, out-of-range raises (`none`). -/
def pyGet (l : List ℚ) (i : ℤ) : Option ℚ :=
  if 0 ≤ i then l.get? i.toNat
  else if (-i).toNat ≤ l.length then l.get? (l.length - (-i).toNat) else none

/-- Python `sorted(latencies)` (ascending). -/
def sortLats (l : List ℚ) : List ℚ :=
  l.insertionSort (· ≤ ·)

/-- `int(0.5 * n)` of `perf_ycsb.py:106` / `sac.py:111` (exact: `0.5` is
an exact double, so this is `⌊n / 2⌋`). -/
def idx50 (n : ℕ) : ℤ := ((n / 2 : ℕ) : ℤ)

/-- `int(0.95 * n) - 1` of `perf_ycsb.py:107` / `sac.py:112`, with the
double product modelled by the exact rational floor `⌊19 n / 20⌋`. -/
def idx95 (n : ℕ) : ℤ := ((19 * n / 20 : ℕ) : ℤ) - 1

/-- `int(0.99 * n) - 1` of `perf_ycsb.py:108` / `sac.py:113`, with the
double product modelled by the exact rational floor `⌊99 n / 100⌋`. -/
def idx99 (n : ℕ) : ℤ := ((99 * n / 100 : ℕ) : ℤ) - 1

/-- The percentile lines of `run_perf_ycsb` (`perf_ycsb.py:94-108`) and
`run_sac` (`sac.py:106-113`): filter-to-successful is done by the caller;
on an empty latency list the summary is skipped (`none`); otherwise the
list is sorted ascending and p50/p95/p99 are read by Python indexing at
`int(0.5*n)`, `int(0.95*n)-1`, `int(0.99*n)-1`. -/
def summarize (lats : List ℚ) : Option (ℚ × ℚ × ℚ) :=
  if lats = [] then none
  else
    let s := sortLats lats
    let n := s.length
    match pyGet s (idx50 n), pyGet s (idx95 n), pyGet s (idx99 n) with
    | some a, some b, some c => some (a, b, c)
    | _, _, _ => none

/-- `clamp(i, 0, n-1)` — the index rule as the specification words it. -/
def clampIdx (i : ℤ) (n : ℕ) : ℕ :=
  min i.toNat (n - 1)

/-- The Percentile Aggregator as the specification describes it:
percentile at fraction f read at `clamp(floor(f * n) - 1, 0, n - 1)` on
the ascending-sorted latencies, for f = 0.5, 0.95 and 0.99 alike. -/
def summarizeSpec (lats : List ℚ) : Option (ℚ × ℚ × ℚ) :=
  if lats = [] then none
  else
    let s := sortLats lats
    let n := s.length
    some (s.getD (clampIdx (idx50 n - 1) n) 0,
          s.getD (clampIdx (idx95 n) n) 0,
          s.getD (clampIdx (idx99 n) n) 0)

/-- Value the code reads as p50: sorted latencies at `⌊n / 2⌋`. -/
def v50 (lats : List ℚ) : ℚ :=
  (sortLats lats).getD (lats.length / 2) 0

/-- Value the code reads as p95: sorted latencies at
`clamp(⌊19 n / 20⌋ - 1, 0, n - 1)` (for n = 1 the raw index is -1 and
Python's negative indexing selects the last = only element, which is the
same element the clamp selects). -/
def v95 (lats : List ℚ) : ℚ :=
  (sortLats lats).getD (clampIdx (idx95 lats.length) lats.length) 0

/-- Value the code reads as p99, analogously to `v95`. -/
def v99 (lats : List ℚ) : ℚ :=
  (sortLats lats).getD (clampIdx (idx99 lats.length) lats.length) 0

/-- Minimum of a latency list (junk 0 on empty, used only nonempty). -/
def listMin : List ℚ → ℚ
  | [] => 0
  | x :: xs => xs.foldl min x

/-- Maximum of a latency list (junk 0 on empty, used only nonempty). -/
def listMax : List ℚ → ℚ
  | [] => 0
  | x :: xs => xs.foldl max x

/-- Per-request record built by `worker_thread` (`perf_ycsb.py:177-186`)
and serialized unchanged to the CSV. -/
structure PerfRec where
  workload : String
  concurrency : ℕ
  node : String
  op : String
  ok : ℕ
  latency_ms : ℚ
  t_start_ms : ℤ
  t_end_ms : ℤ
deriving DecidableEq

deriving instance DecidableEq for Except

/-- Environment of one `worker_thread` loop iteration: the drawn
operation, key and node, the two `time.time()` readings around the
request, and whether the request raised (`.error`) or returned. -/
structure PerfEnv where
  op : String
  key : String
  node : String
  tStart : ℚ
  tEnd : ℚ
  outcome : Except PyErr Unit
deriving DecidableEq

/-- Whether an `Except` value is a normal return. -/
def exceptOk {ε α : Type} : Except ε α → Bool
  | .ok _ => true
  | .error _ => false

/-- The body of one `worker_thread` iteration (`perf_ycsb.py:165-187`):
`ok` is set iff the try-block did not raise, the record is built from the
two clock readings and appended — a raised request is recorded with
`ok = 0`, never retried, and the loop continues. -/
def perfWorkerRec (wname : String) (conc : ℕ) (e : PerfEnv) : PerfRec :=
  { workload := wname
    concurrency := conc
    node := e.node
    op := e.op
    ok := if exceptOk e.outcome then 1 else 0
    latency_ms := (e.tEnd - e.tStart) * 1000
    t_start_ms := pyInt (e.tStart * 1000)
    t_end_ms := pyInt (e.tEnd * 1000) }

/-- A full worker loop run over its sequence of iteration environments:
one record per iteration, unconditionally. -/
def workerRun (wname : String) (conc : ℕ) (envs : List PerfEnv) : List PerfRec :=
  envs.map (perfWorkerRec wname conc)

/-- Minimum of an integer list (junk 0 on empty, used only nonempty). -/
def listMinZ : List ℤ → ℤ
  | [] => 0
  | x :: xs => xs.foldl min x

/-- Maximum of an integer list (junk 0 on empty, used only nonempty). -/
def listMaxZ : List ℤ → ℤ
  | [] => 0
  | x :: xs => xs.foldl max x

/-- `max(r["t_end_ms"]) - min(r["t_start_ms"])` over a run's records
(`perf_ycsb.py:99-101`). -/
def spanMs (recs : List PerfRec) : ℤ :=
  listMaxZ (recs.map (fun r => r.t_end_ms)) -
    listMinZ (recs.map (fun r => r.t_start_ms))

/-- Latencies of the successful records
(`[r["latency_ms"] for r in run_records if r["ok"]]`, line 94). -/
def okLats (recs : List PerfRec) : List ℚ :=
  (recs.filter (fun r => decide (r.ok ≠ 0))).map (fun r => r.latency_ms)

/-- `duration_s = max(duration_ms / 1000.0, 1e-6)` (line 102). -/
def durS (recs : List PerfRec) : ℚ :=
  max ((spanMs recs : ℚ) / 1000) (1 / 1000000)

/-- Summary line of one (workload, concurrency) run. -/
structure PerfStats where
  throughput : ℚ
  p50 : ℚ
  p95 : ℚ
  p99 : ℚ
deriving DecidableEq

/-- The per-run summary computation (`perf_ycsb.py:94-113`): skipped
(`none`) when no request succeeded, else throughput =
`len(run_records) / duration_s` over all records including failures,
plus the three percentiles of the successful latencies. -/
def perfSummary (recs : List PerfRec) : Option PerfStats :=
  match summarize (okLats recs) with
  | none => none
  | some (a, b, c) => some ⟨(recs.length : ℚ) / durS recs, a, b, c⟩

/-- A concrete successful record: 100 ms span run. -/
def perfRecEx : PerfRec :=
  ⟨"A", 4, "node-a", "GET", 1, 12, 1000, 1100⟩

/-- Result of `DynLiteHttpClient.get` (`client.py:14-18`). -/
structure KvReadResult where
  found : Bool
  value : Option (List ℕ)
  clock : List (String × ℤ)
deriving DecidableEq

/-- Staleness classification of one trial (`staleness.py:63-67`):
`is_stale = 0` exactly when the read found the key and the returned value
equals, byte for byte, the payload just written. -/
def isStale (expected : List ℕ) (r : KvReadResult) : ℕ :=
  if r.found = true ∧ r.value = some expected then 0 else 1

/-- One row of the staleness CSV (`staleness.py:72-78`). -/
structure StaleRec where
  delay_ms : ℤ
  read_node : String
  is_stale : ℕ
deriving DecidableEq

/-- Environment of one staleness trial: the freshly generated payload,
the outcome of the `put` on the primary, the randomly chosen read node
and the outcome of the `get` from it. -/
structure TrialEnv where
  expected : List ℕ
  putRes : Except PyErr Unit
  readNode : String
  readRes : Except PyErr KvReadResult
deriving DecidableEq

/-- Record built for one completed trial. -/
def staleStep (d : ℤ) (t : TrialEnv) (r : KvReadResult) : StaleRec :=
  ⟨d, t.readNode, isStale t.expected r⟩

/-- The inner trial loop of `run_staleness` for one delay value
(`staleness.py:50-78`).  The body has no try/except: an exception from
`put` or `get` propagates (`.error`), discarding all state. -/
def staleLoop (d : ℤ) : List TrialEnv → List StaleRec × ℕ × ℕ →
    Except PyErr (List StaleRec × ℕ × ℕ)
  | [], acc => .ok acc
  | t :: ts, (recs, cnt, tot) =>
    match t.putRes with
    | .error e => .error e
    | .ok _ =>
      match t.readRes with
      | .error e => .error e
      | .ok r =>
          staleLoop d ts
            (recs ++ [staleStep d t r], cnt + isStale t.expected r, tot + 1)

/-- One delay bucket of `run_staleness`: the trial loop followed by the
per-delay fraction `stale_count / max(total, 1)` (`staleness.py:80`).
On an exception nothing is flushed — the CSV is only written after every
delay completes (`staleness.py:83-89`). -/
def runStalenessDelay (d : ℤ) (trials : List TrialEnv) :
    Except PyErr (List StaleRec × ℚ) :=
  match staleLoop d trials ([], 0, 0) with
  | .error e => .error e
  | .ok (recs, cnt, tot) => .ok (recs, (cnt : ℚ) / ((max tot 1 : ℕ) : ℚ))

/-- The read result of a trial whose `get` returned normally. -/
def readOf (t : TrialEnv) : KvReadResult :=
  match t.readRes with
  | .ok r => r
  | .error _ => ⟨false, none, []⟩

/-- Records of an exception-free run of one delay bucket. -/
def staleRecsOk (d : ℤ) (trials : List TrialEnv) : List StaleRec :=
  trials.map (fun t => staleStep d t (readOf t))

/-- Total stale count of a record list. -/
def staleCount (recs : List StaleRec) : ℕ :=
  (recs.map (fun r => r.is_stale)).sum

/-- An exception-free stale trial (read returned an older value). -/
def trialEnvStale : TrialEnv :=
  ⟨[1, 2], .ok (), "node-b", .ok ⟨true, some [9, 9], []⟩⟩

/-- An exception-free fresh trial (read returned the written payload). -/
def trialEnvFresh : TrialEnv :=
  ⟨[1, 2], .ok (), "node-c", .ok ⟨true, some [1, 2], []⟩⟩

/-- A staleness trial whose read raises a transport error. -/
def trialEnvBad : TrialEnv :=
  ⟨[1, 2], .ok (), "node-b", .error .transport⟩

/-- One row of the convergence CSV (`anti_entropy.py:76-85`). -/
structure ConvSample where
  t_offset_s : ℚ
  node_a : String
  node_b : String
  root_a : String
  root_b : String
  in_sync : ℕ
deriving DecidableEq

/-- Sample emitted for the ordered pair `(n1, n2)` at one observation
iteration (`anti_entropy.py:75-85`): `in_sync = int(roots[n1] ==
roots[n2])`, where `roots` maps each node to the `rootHashBase64` of the
Merkle snapshot fetched from it this iteration. -/
def mkConvSample (tOff : ℚ) (digest : String → String) (n1 n2 : String) :
    ConvSample :=
  ⟨tOff, n1, n2, digest n1, digest n2, if digest n1 = digest n2 then 1 else 0⟩

/-- The pairwise-equality double loop of one observation iteration
(`anti_entropy.py:71-85`): `for i, for j in range(i+1, len)` — the head
node paired with each later node, then recursively the rest. -/
def pairSamples (tOff : ℚ) (digest : String → String) :
    List String → List ConvSample
  | [] => []
  | n1 :: rest =>
      rest.map (mkConvSample tOff digest n1) ++ pairSamples tOff digest rest

/-- Whether a sample is about the unordered pair `{a, b}`. -/
def pairPred (a b : String) (s : ConvSample) : Bool :=
  decide ((s.node_a = a ∧ s.node_b = b) ∨ (s.node_a = b ∧ s.node_b = a))

/-- Client-side SLO buckets (`config.py:75-85`). -/
structure SloConfig where
  tight_deadline_ms : ℕ
  relaxed_deadline_ms : ℕ
  deadline_header_name : String
deriving DecidableEq

/-- The configured values of `SloConfig` (`config.py:83-85`). -/
def sloCONFIG : SloConfig := ⟨20, 100, "X-Deadline-Ms"⟩

/-- `choose_deadline` (`sac.py:65-69`): a uniform draw `x ∈ [0,1)` below
1/2 yields the tight class with the tight budget, otherwise the relaxed
class with the relaxed budget. -/
def choose_deadline (slo : SloConfig) (x : ℚ) : String × ℕ :=
  if x < 1 / 2 then ("tight", slo.tight_deadline_ms)
  else ("relaxed", slo.relaxed_deadline_ms)

/-- One row of the SAC CSV (`sac.py:93-101`). -/
structure SacRec where
  node : String
  klass : String
  deadline_ms : ℕ
  latency_ms : ℚ
  ok : ℕ
  t_start_ms : ℤ
  t_end_ms : ℤ
deriving DecidableEq

/-- Environment of one `run_sac` loop iteration: the class draw `x`, the
chosen key and node, the two clock readings, and the HTTP status of the
read (or the raised exception). -/
structure SacEnv where
  x : ℚ
  key : String
  node : String
  tStart : ℚ
  tEnd : ℚ
  respStatus : Except PyErr ℕ
deriving DecidableEq

/-- The body of one `run_sac` iteration (`sac.py:76-102`): choose the
class and deadline, send the read with header
`{deadline_header: str(deadline)}`, set `ok = 1` iff the response status
is 200 or 404 (an exception gives `ok = 0`), and emit the record.
Returns the emitted record and the header sent. -/
def sacIteration (slo : SloConfig) (e : SacEnv) : SacRec × (String × String) :=
  let cd := choose_deadline slo e.x
  let ok : ℕ := match e.respStatus with
    | .ok s => if s = 200 ∨ s = 404 then 1 else 0
    | .error _ => 0
  (⟨e.node, cd.1, cd.2, (e.tEnd - e.tStart) * 1000, ok,
      pyInt (e.tStart * 1000), pyInt (e.tEnd * 1000)⟩,
    (slo.deadline_header_name, toString cd.2))

/-- The whole SAC loop over its iteration environments: exactly one
record per iteration. -/
def sacRun (slo : SloConfig) (envs : List SacEnv) : List (SacRec × (String × String)) :=
  envs.map (sacIteration slo)

/-- JSON body of a 2xx response to `GET /kv/{key}` as `client.py:86-103`
reads it: `found` (missing treated as false), `valueBase64` (possibly
absent) and `vectorClock` (missing or null treated as `{}`). -/
structure GetBody where
  found : Option Bool
  valueBase64 : Option String
  vectorClock : Option (List (String × ℤ))
deriving DecidableEq

/-- `DynLiteHttpClient.get` (`client.py:71-104`).  The response is the
status code paired with the parsed body (`none` models an unparseable
body, whose `resp.json()` raises); the whole response is `.error` when
the transport itself raised.  Base64 decoding is the external `base64`
library, passed in as `b64`; a decode failure raises `RuntimeError`
(`.error .decodeError`).  `raise_for_status` raises on any non-2xx
status other than the 404 handled first. -/
def clientGet (b64 : String → Option (List ℕ))
    (resp : Except PyErr (ℕ × Option GetBody)) : Except PyErr KvReadResult :=
  match resp with
  | .error e => .error e
  | .ok (status, parsed) =>
      if status = 404 then .ok ⟨false, none, []⟩
      else if status < 200 ∨ 300 ≤ status then .error (.httpStatus status)
      else
        match parsed with
        | none => .error .jsonError
        | some body =>
            if body.found.getD false = false then .ok ⟨false, none, []⟩
            else
              match body.valueBase64 with
              | none => .ok ⟨false, none, []⟩
              | some s =>
                  match b64 s with
                  | none => .error .decodeError
                  | some raw => .ok ⟨true, some raw, body.vectorClock.getD []⟩

example : summarize [10, 20, 30, 40, 50] = some (30, 40, 40) := by decide
example : summarizeSpec [10, 20, 30, 40, 50] = some (20, 40, 40) := by decide
example : summarize [10, 20] = some (20, 10, 10) := by decide
example : summarize [7] = some (7, 7, 7) := by decide

lemma sortLats_length (l : List ℚ) : (sortLats l).length = l.length :=
  (List.perm_insertionSort _ l).length_eq

lemma sortLats_sorted (l : List ℚ) : (sortLats l).Sorted (· ≤ ·) :=
  List.sorted_insertionSort _ l

lemma get?_eq_some_getD {l : List ℚ} {k : ℕ} (h : k < l.length) :
    l.get? k = some (l.getD k 0) := by
  rw [List.get?_eq_getElem?, List.getElem?_eq_getElem h, List.getD_eq_getElem _ _ h]

lemma getD_mem {l : List ℚ} {k : ℕ} (h : k < l.length) : l.getD k 0 ∈ l := by
  rw [List.getD_eq_getElem _ _ h]
  exact List.getElem_mem h

lemma getD_le_getD {l : List ℚ} (hs : l.Sorted (· ≤ ·)) {i j : ℕ}
    (hij : i ≤ j) (hj : j < l.length) : l.getD i 0 ≤ l.getD j 0 := by
  have hi : i < l.length := lt_of_le_of_lt hij hj
  rw [List.getD_eq_getElem _ _ hi, List.getD_eq_getElem _ _ hj]
  have := hs.rel_get_of_le (a := ⟨i, hi⟩) (b := ⟨j, hj⟩) (Fin.mk_le_mk.mpr hij)
  simpa using this

lemma foldl_min_le_init (l : List ℚ) : ∀ a : ℚ, l.foldl min a ≤ a := by
  induction l with
  | nil => intro a; simp
  | cons x xs ih =>
      intro a
      calc xs.foldl min (min a x) ≤ min a x := ih _
        _ ≤ a := min_le_left _ _

lemma foldl_min_le_mem {l : List ℚ} {x : ℚ} (hx : x ∈ l) :
    ∀ a : ℚ, l.foldl min a ≤ x := by
  induction l with
  | nil => cases hx
  | cons y ys ih =>
      intro a
      rcases List.mem_cons.mp hx with h | h
      · subst h
        calc ys.foldl min (min a x) ≤ min a x := foldl_min_le_init ys _
          _ ≤ x := min_le_right _ _
      · exact ih h _

lemma init_le_foldl_max (l : List ℚ) : ∀ a : ℚ, a ≤ l.foldl max a := by
  induction l with
  | nil => intro a; simp
  | cons x xs ih =>
      intro a
      calc a ≤ max a x := le_max_left _ _
        _ ≤ xs.foldl max (max a x) := ih _

lemma mem_le_foldl_max {l : List ℚ} {x : ℚ} (hx : x ∈ l) :
    ∀ a : ℚ, x ≤ l.foldl max a := by
  induction l with
  | nil => cases hx
  | cons y ys ih =>
      intro a
      rcases List.mem_cons.mp hx with h | h
      · subst h
        calc x ≤ max a x := le_max_right _ _
          _ ≤ ys.foldl max (max a x) := init_le_foldl_max ys _
      · exact ih h _

lemma listMin_le {l : List ℚ} {x : ℚ} (hx : x ∈ l) : listMin l ≤ x := by
  cases l with
  | nil => cases hx
  | cons y ys =>
      rcases List.mem_cons.mp hx with h | h
      · subst h; exact foldl_min_le_init ys _
      · exact foldl_min_le_mem h _

lemma le_listMax {l : List ℚ} {x : ℚ} (hx : x ∈ l) : x ≤ listMax l := by
  cases l with
  | nil => cases hx
  | cons y ys =>
      rcases List.mem_cons.mp hx with h | h
      · subst h; exact init_le_foldl_max ys _
      · exact mem_le_foldl_max h _

lemma pyGet_eq_clamp {l : List ℚ} {i : ℤ} (hi : i < l.length)
    (hlow : -1 ≤ i) (hneg : i = -1 → l.length = 1) :
    pyGet l i = some (l.getD (clampIdx i l.length) 0) := by
  unfold pyGet clampIdx
  by_cases h0 : 0 ≤ i
  · rw [if_pos h0]
    have hk : i.toNat < l.length := by omega
    have hmin : min i.toNat (l.length - 1) = i.toNat := by omega
    rw [hmin]
    exact get?_eq_some_getD hk
  · have hi1 : i = -1 := by omega
    subst hi1
    have hlen : l.length = 1 := hneg rfl
    rw [if_neg h0]
    have h1 : ((-(-1 : ℤ))).toNat ≤ l.length := by omega
    rw [if_pos h1]
    have hk : l.length - ((-(-1 : ℤ))).toNat < l.length := by omega
    have hmin : min ((-1 : ℤ)).toNat (l.length - 1) =
        l.length - ((-(-1 : ℤ))).toNat := by omega
    rw [hmin]
    exact get?_eq_some_getD hk

lemma summarize_eq_vals {lats : List ℚ} (h : lats ≠ []) :
    summarize lats = some (v50 lats, v95 lats, v99 lats) := by
  have hlen : (sortLats lats).length = lats.length := sortLats_length lats
  have hpos : 0 < lats.length := List.length_pos.mpr h
  have h50 : pyGet (sortLats lats) (idx50 lats.length) = some (v50 lats) := by
    have := pyGet_eq_clamp (l := sortLats lats) (i := idx50 lats.length)
      (by unfold idx50; omega) (by unfold idx50; omega)
      (by unfold idx50; omega)
    rw [this]
    unfold v50
    have : clampIdx (idx50 lats.length) (sortLats lats).length =
        lats.length / 2 := by
      unfold clampIdx idx50; rw [hlen]; omega
    rw [this]
  have h95 : pyGet (sortLats lats) (idx95 lats.length) = some (v95 lats) := by
    have := pyGet_eq_clamp (l := sortLats lats) (i := idx95 lats.length)
      (by unfold idx95; omega) (by unfold idx95; omega)
      (by unfold idx95; omega)
    rw [this]
    unfold v95
    rw [hlen]
  have h99 : pyGet (sortLats lats) (idx99 lats.length) = some (v99 lats) := by
    have := pyGet_eq_clamp (l := sortLats lats) (i := idx99 lats.length)
      (by unfold idx99; omega) (by unfold idx99; omega)
      (by unfold idx99; omega)
    rw [this]
    unfold v99
    rw [hlen]
  unfold summarize
  rw [if_neg h]
  simp only [hlen, h50, h95, h99]

lemma getD_sortLats_bounds {lats : List ℚ} {k : ℕ} (hk : k < lats.length) :
    listMin lats ≤ (sortLats lats).getD k 0 ∧
      (sortLats lats).getD k 0 ≤ listMax lats := by
  have hk' : k < (sortLats lats).length := by rw [sortLats_length]; exact hk
  have hmem : (sortLats lats).getD k 0 ∈ sortLats lats := getD_mem hk'
  have hmem' : (sortLats lats).getD k 0 ∈ lats :=
    (List.mem_insertionSort _).mp hmem
  exact ⟨listMin_le hmem', le_listMax hmem'⟩

/-- C1 (amended).  For a non-empty latency list of size n, the code reads
p95 and p99 at `clamp(floor(f * n) - 1, 0, n - 1)` on the ascending sort
(its raw Python index `int(f*n) - 1` equals the clamp except at n = 1,
where the raw index is -1 and Python's from-the-back indexing selects the
same single element the clamp selects) — but p50 is read at the index
`floor(0.5 * n)` WITHOUT the `- 1` of the claimed rule; in particular on
`[10,20,30,40,50]` the code returns p50 = 30 (not 20) and p95 = 40. -/
theorem perc_index_rule (lats : List ℚ) (h : lats ≠ []) :
    summarize lats = some (v50 lats, v95 lats, v99 lats) :=
  summarize_eq_vals h

/-- Witness for `perc_index_rule`: on `[10,20,30,40,50]` the summary is
p50 = 30, p95 = 40, p99 = 40. -/
theorem perc_index_rule_witness :
    summarize [10, 20, 30, 40, 50] = some (30, 40, 40) := by
  rw [perc_index_rule [10, 20, 30, 40, 50] (by decide)]
  decide

/-- C1 counterexample.  The claim's index rule (`clamp(floor(f*n)-1, 0,
n-1)` for f = 0.5 as well, hence p50 = 20 on `[10,20,30,40,50]`) does not
match the code: the code reads p50 at `int(0.5*n)` with no `- 1` and
returns 30 on that input. -/
theorem perc_index_rule_cex :
    summarize [10, 20, 30, 40, 50] = some (30, 40, 40) ∧
      summarizeSpec [10, 20, 30, 40, 50] = some (20, 40, 40) ∧
      summarize [10, 20, 30, 40, 50] ≠ summarizeSpec [10, 20, 30, 40, 50] :=
  ⟨by decide, by decide, by decide⟩

/-- C4 counterexample.  On the two-element latency list `[10, 20]` the
code returns p50 = 20 and p95 = 10, so the claimed p50 ≤ p95 fails. -/
theorem perc_order_cex :
    summarize [10, 20] = some (20, 10, 10) ∧ ¬ ((20 : ℚ) ≤ 10) :=
  ⟨by decide, by decide⟩

/-- C4 (amended).  For every non-empty latency list the reported
percentiles satisfy p95 ≤ p99, and each of p50, p95, p99 lies within
`[min(latencies), max(latencies)]`; p50 ≤ p95 holds whenever the list
does not have exactly two elements (at n = 2 it can fail, because p50 is
read at index 1 and p95 at index 0). -/
theorem perc_order_bounds (lats : List ℚ) (h : lats ≠ []) :
    summarize lats = some (v50 lats, v95 lats, v99 lats) ∧
      v95 lats ≤ v99 lats ∧
      (lats.length ≠ 2 → v50 lats ≤ v95 lats) ∧
      listMin lats ≤ v50 lats ∧ v50 lats ≤ listMax lats ∧
      listMin lats ≤ v95 lats ∧ v95 lats ≤ listMax lats ∧
      listMin lats ≤ v99 lats ∧ v99 lats ≤ listMax lats := by
  have hpos : 0 < lats.length := List.length_pos.mpr h
  have hslen : (sortLats lats).length = lats.length := sortLats_length lats
  have hsorted := sortLats_sorted lats
  have h50lt : lats.length / 2 < lats.length := by omega
  have h95lt : clampIdx (idx95 lats.length) lats.length < lats.length := by
    unfold clampIdx idx95; omega
  have h99lt : clampIdx (idx99 lats.length) lats.length < lats.length := by
    unfold clampIdx idx99; omega
  have h9599 : clampIdx (idx95 lats.length) lats.length ≤
      clampIdx (idx99 lats.length) lats.length := by
    unfold clampIdx idx95 idx99; omega
  have h5095 : lats.length ≠ 2 →
      lats.length / 2 ≤ clampIdx (idx95 lats.length) lats.length := by
    intro h2; unfold clampIdx idx95; omega
  refine ⟨summarize_eq_vals h, ?_, ?_, ?_, ?_, ?_, ?_, ?_, ?_⟩
  · exact getD_le_getD hsorted h9599 (by rw [hslen]; exact h99lt)
  · intro h2
    exact getD_le_getD hsorted (h5095 h2) (by rw [hslen]; exact h95lt)
  · exact (getD_sortLats_bounds h50lt).1
  · exact (getD_sortLats_bounds h50lt).2
  · exact (getD_sortLats_bounds h95lt).1
  · exact (getD_sortLats_bounds h95lt).2
  · exact (getD_sortLats_bounds h99lt).1
  · exact (getD_sortLats_bounds h99lt).2

/-- Witness for `perc_order_bounds` at the concrete list `[30, 5, 12]`. -/
theorem perc_order_bounds_witness :
    summarize [30, 5, 12] = some (v50 [30, 5, 12], v95 [30, 5, 12],
        v99 [30, 5, 12]) ∧
      v95 [30, 5, 12] ≤ v99 [30, 5, 12] ∧
      (([30, 5, 12] : List ℚ).length ≠ 2 → v50 [30, 5, 12] ≤ v95 [30, 5, 12]) ∧
      listMin [30, 5, 12] ≤ v50 [30, 5, 12] ∧ v50 [30, 5, 12] ≤ listMax [30, 5, 12] ∧
      listMin [30, 5, 12] ≤ v95 [30, 5, 12] ∧ v95 [30, 5, 12] ≤ listMax [30, 5, 12] ∧
      listMin [30, 5, 12] ≤ v99 [30, 5, 12] ∧ v99 [30, 5, 12] ≤ listMax [30, 5, 12] :=
  perc_order_bounds [30, 5, 12] (by decide)

lemma pyInt_of_nonneg {x : ℚ} (h : 0 ≤ x) : pyInt x = ⌊x⌋ := by
  unfold pyInt; rw [if_pos h]

/-- C8.  Every RequestRecord the worker emits from clock readings
`tStart ≤ tEnd` (the second `time.time()` call happens after the first;
the wall clock is assumed not to step backwards between them, and
timestamps are non-negative) satisfies `t_end_ms ≥ t_start_ms`, and its
`latency_ms` — measured from the same pair of clock reads — differs from
`t_end_ms - t_start_ms` by strictly less than 1 ms, the error introduced
by millisecond truncation of the two timestamps. -/
theorem record_time_invariant (w : String) (c : ℕ) (e : PerfEnv)
    (h0 : 0 ≤ e.tStart) (h1 : e.tStart ≤ e.tEnd) :
    (perfWorkerRec w c e).t_start_ms ≤ (perfWorkerRec w c e).t_end_ms ∧
      |(perfWorkerRec w c e).latency_ms -
        (((perfWorkerRec w c e).t_end_ms : ℚ) -
          ((perfWorkerRec w c e).t_start_ms : ℚ))| < 1 := by
  have hx : (0 : ℚ) ≤ e.tStart * 1000 := by positivity
  have hy : (0 : ℚ) ≤ e.tEnd * 1000 := by nlinarith
  have hxy : e.tStart * 1000 ≤ e.tEnd * 1000 := by nlinarith
  constructor
  · show pyInt (e.tStart * 1000) ≤ pyInt (e.tEnd * 1000)
    rw [pyInt_of_nonneg hx, pyInt_of_nonneg hy]
    exact Int.floor_le_floor hxy
  · show |(e.tEnd - e.tStart) * 1000 -
      ((pyInt (e.tEnd * 1000) : ℚ) - (pyInt (e.tStart * 1000) : ℚ))| < 1
    rw [pyInt_of_nonneg hx, pyInt_of_nonneg hy]
    have hf1 : (⌊e.tEnd * 1000⌋ : ℚ) ≤ e.tEnd * 1000 := Int.floor_le _
    have hf2 : e.tEnd * 1000 < ⌊e.tEnd * 1000⌋ + 1 := Int.lt_floor_add_one _
    have hf3 : (⌊e.tStart * 1000⌋ : ℚ) ≤ e.tStart * 1000 := Int.floor_le _
    have hf4 : e.tStart * 1000 < ⌊e.tStart * 1000⌋ + 1 := Int.lt_floor_add_one _
    rw [abs_lt]
    constructor <;> nlinarith

/-- Witness for `record_time_invariant`: a read taking from t = 2.0005 s
to t = 2.0021 s is recorded with `t_start_ms = 2000 ≤ t_end_ms = 2002`
and latency 1.6 ms, within 1 ms of the timestamp difference 2. -/
theorem record_time_invariant_witness :
    (perfWorkerRec "A" 4 ⟨"GET", "perf-1", "node-a", 4001/2000, 20021/10000,
        Except.ok ()⟩).t_start_ms ≤
      (perfWorkerRec "A" 4 ⟨"GET", "perf-1", "node-a", 4001/2000, 20021/10000,
        Except.ok ()⟩).t_end_ms ∧
      |(perfWorkerRec "A" 4 ⟨"GET", "perf-1", "node-a", 4001/2000, 20021/10000,
          Except.ok ()⟩).latency_ms -
        (((perfWorkerRec "A" 4 ⟨"GET", "perf-1", "node-a", 4001/2000,
            20021/10000, Except.ok ()⟩).t_end_ms : ℚ) -
          ((perfWorkerRec "A" 4 ⟨"GET", "perf-1", "node-a", 4001/2000,
            20021/10000, Except.ok ()⟩).t_start_ms : ℚ))| < 1 :=
  record_time_invariant "A" 4 _ (by norm_num) (by norm_num)

/-- C5.  Whenever a run has at least one successful record and its
wall-clock span `max(t_end_ms) - min(t_start_ms)` is positive, the
summary is produced, its throughput equals the total record count
(failures included) divided by the span floored to the 1e-6 s epsilon,
the epsilon floor is inactive (the span, being a positive whole number
of milliseconds, is at least 1 ms ≥ 1e-3 s > 1e-6 s), and the reported
throughput is strictly positive. -/
theorem throughput_formula (recs : List PerfRec)
    (hok : ∃ r ∈ recs, r.ok ≠ 0) (hspan : 0 < spanMs recs) :
    (perfSummary recs).map PerfStats.throughput
        = some ((recs.length : ℚ) / max ((spanMs recs : ℚ) / 1000) (1 / 1000000)) ∧
      max ((spanMs recs : ℚ) / 1000) (1 / 1000000) = (spanMs recs : ℚ) / 1000 ∧
      0 < (recs.length : ℚ) / max ((spanMs recs : ℚ) / 1000) (1 / 1000000) := by
  obtain ⟨r, hr, hrok⟩ := hok
  have hmemf : r ∈ recs.filter (fun r => decide (r.ok ≠ 0)) :=
    List.mem_filter.mpr ⟨hr, by simpa using hrok⟩
  have hne : okLats recs ≠ [] := by
    unfold okLats
    intro hcon
    rw [List.map_eq_nil] at hcon
    rw [hcon] at hmemf
    cases hmemf
  have hlen : recs ≠ [] := by
    intro hcon; rw [hcon] at hr; cases hr
  have hspan1 : (1 : ℤ) ≤ spanMs recs := hspan
  have hmax : max ((spanMs recs : ℚ) / 1000) (1 / 1000000)
      = (spanMs recs : ℚ) / 1000 := by
    apply max_eq_left
    have : (1 : ℚ) ≤ (spanMs recs : ℚ) := by exact_mod_cast hspan1
    rw [div_le_div_iff (by norm_num) (by norm_num)]
    linarith
  refine ⟨?_, hmax, ?_⟩
  · unfold perfSummary
    rw [summarize_eq_vals hne]
    rfl
  · apply div_pos
    · have : 0 < recs.length := List.length_pos.mpr hlen
      exact_mod_cast this
    · rw [hmax]
      have : (0 : ℚ) < (spanMs recs : ℚ) := by exact_mod_cast hspan
      linarith

/-- Witness for `throughput_formula` at the one-record run `[perfRecEx]`
(span 100 ms). -/
theorem throughput_formula_witness :
    (perfSummary [perfRecEx]).map PerfStats.throughput
        = some ((([perfRecEx] : List PerfRec).length : ℚ) /
          max ((spanMs [perfRecEx] : ℚ) / 1000) (1 / 1000000)) ∧
      max ((spanMs [perfRecEx] : ℚ) / 1000) (1 / 1000000)
        = (spanMs [perfRecEx] : ℚ) / 1000 ∧
      0 < (([perfRecEx] : List PerfRec).length : ℚ) /
          max ((spanMs [perfRecEx] : ℚ) / 1000) (1 / 1000000) :=
  throughput_formula [perfRecEx] ⟨perfRecEx, by decide, by decide⟩ (by decide)

lemma staleLoop_all_ok (d : ℤ) (trials : List TrialEnv)
    (hok : ∀ t ∈ trials, exceptOk t.putRes = true ∧ exceptOk t.readRes = true) :
    ∀ recs0 cnt0 tot0, staleLoop d trials (recs0, cnt0, tot0) =
      .ok (recs0 ++ staleRecsOk d trials,
        cnt0 + staleCount (staleRecsOk d trials), tot0 + trials.length) := by
  induction trials with
  | nil => intro recs0 cnt0 tot0; simp [staleLoop, staleRecsOk, staleCount]
  | cons t ts ih =>
      intro recs0 cnt0 tot0
      obtain ⟨hput, hread⟩ := hok t (List.mem_cons_self t ts)
      cases hp : t.putRes with
      | error e => rw [hp] at hput; cases hput
      | ok u =>
          cases hr : t.readRes with
          | error e => rw [hr] at hread; cases hread
          | ok r =>
              have hro : readOf t = r := by unfold readOf; rw [hr]
              simp only [staleLoop, hp, hr]
              rw [ih (fun x hx => hok x (List.mem_cons_of_mem t hx))]
              simp [staleRecsOk, staleCount, staleStep, hro]
              omega

/-- C6.  In the Staleness Probe, for every exception-free delay bucket:
each trial is classified `stale = 1` iff the read returned "not found"
or a value differing byte-for-byte from the payload just written
(`stale = 0` only on exact match), and the reported per-delay fraction
equals `stale_count / trialsPerDelay`. -/
theorem staleness_classification (d : ℤ) (trials : List TrialEnv)
    (hok : ∀ t ∈ trials, exceptOk t.putRes = true ∧ exceptOk t.readRes = true)
    (hne : trials ≠ []) :
    runStalenessDelay d trials =
        .ok (staleRecsOk d trials,
          (staleCount (staleRecsOk d trials) : ℚ) / (trials.length : ℚ)) ∧
      (∀ t ∈ trials, (staleStep d t (readOf t)).is_stale = 0 ↔
        (readOf t).found = true ∧ (readOf t).value = some t.expected) ∧
      (∀ t ∈ trials, (staleStep d t (readOf t)).is_stale = 1 ↔
        ¬((readOf t).found = true ∧ (readOf t).value = some t.expected)) := by
  have hlen : 0 < trials.length := List.length_pos.mpr hne
  have hmax : max trials.length 1 = trials.length := by omega
  refine ⟨?_, ?_, ?_⟩
  · unfold runStalenessDelay
    rw [staleLoop_all_ok d trials hok [] 0 0]
    simp [hmax]
  · intro t _
    by_cases hc : (readOf t).found = true ∧ (readOf t).value = some t.expected
    · simp [staleStep, isStale, hc]
    · simp only [staleStep, isStale, if_neg hc]
      simpa using hc
  · intro t _
    by_cases hc : (readOf t).found = true ∧ (readOf t).value = some t.expected
    · simp [staleStep, isStale, hc]
    · simp only [staleStep, isStale, if_neg hc]
      simpa using hc

/-- Witness for `staleness_classification`: two trials, one stale one
fresh, give fraction 1/2 and the stated classification. -/
theorem staleness_classification_witness :
    runStalenessDelay 50 [trialEnvStale, trialEnvFresh] =
        .ok (staleRecsOk 50 [trialEnvStale, trialEnvFresh],
          (staleCount (staleRecsOk 50 [trialEnvStale, trialEnvFresh]) : ℚ) /
            (([trialEnvStale, trialEnvFresh] : List TrialEnv).length : ℚ)) ∧
      (∀ t ∈ ([trialEnvStale, trialEnvFresh] : List TrialEnv),
        (staleStep 50 t (readOf t)).is_stale = 0 ↔
          (readOf t).found = true ∧ (readOf t).value = some t.expected) ∧
      (∀ t ∈ ([trialEnvStale, trialEnvFresh] : List TrialEnv),
        (staleStep 50 t (readOf t)).is_stale = 1 ↔
          ¬((readOf t).found = true ∧ (readOf t).value = some t.expected)) :=
  staleness_classification 50 [trialEnvStale, trialEnvFresh]
    (by decide) (by decide)

/-- C3 counterexample.  A transport failure on an individual request of
the Staleness Probe is NOT contained: `run_staleness` has no try/except
around `put`/`get` (`staleness.py:53-78`), so the exception propagates,
the enclosing trial loop aborts, and — the CSV being written only after
all delays complete — no records at all are flushed.  Concretely, a
single trial whose read raises makes the whole delay bucket evaluate to
the propagated exception instead of any record list. -/
theorem error_containment_cex :
    runStalenessDelay 0 [trialEnvBad] = .error PyErr.transport ∧
      ∀ recs, runStalenessDelay 0 [trialEnvBad] ≠ .ok recs := by
  constructor
  · rfl
  · intro recs h
    cases h

/-- C3 (amended).  The mixed-workload driver's worker contains failures:
it emits exactly one record per request, a raised request is recorded
with `ok = 0` (and a returned one with `ok = 1`), no request is retried
and the loop never aborts (the SLO and chaos probes share this
try/except pattern).  The staleness probe (and likewise the convergence
probe) does not: if any trial's `put` or `get` raises, the whole delay
bucket evaluates to the propagated exception, so the probe aborts and
flushes nothing. -/
theorem error_containment_amended :
    (∀ (w : String) (c : ℕ) (envs : List PerfEnv),
        (workerRun w c envs).length = envs.length) ∧
      (∀ (w : String) (c : ℕ) (e : PerfEnv),
        (perfWorkerRec w c e).ok = if exceptOk e.outcome then 1 else 0) ∧
      (∀ (d : ℤ) (trials : List TrialEnv) (t : TrialEnv), t ∈ trials →
        exceptOk t.putRes = false ∨ exceptOk t.readRes = false →
        ∃ er, runStalenessDelay d trials = .error er) := by
  refine ⟨?_, ?_, ?_⟩
  · intro w c envs
    simp [workerRun]
  · intro w c e
    rfl
  · intro d trials
    suffices h : ∀ (recs0 : List StaleRec) (cnt0 tot0 : ℕ) (t : TrialEnv),
        t ∈ trials →
        exceptOk t.putRes = false ∨ exceptOk t.readRes = false →
        ∃ er, staleLoop d trials (recs0, cnt0, tot0) = .error er by
      intro t ht hbad
      obtain ⟨er, her⟩ := h [] 0 0 t ht hbad
      exact ⟨er, by unfold runStalenessDelay; rw [her]⟩
    induction trials with
    | nil => intro recs0 cnt0 tot0 t ht; cases ht
    | cons u us ih =>
        intro recs0 cnt0 tot0 t ht hbad
        cases hp : u.putRes with
        | error e => exact ⟨e, by simp [staleLoop, hp]⟩
        | ok v =>
            cases hr : u.readRes with
            | error e => exact ⟨e, by simp [staleLoop, hp, hr]⟩
            | ok r =>
                have htus : t ∈ us := by
                  rcases List.mem_cons.mp ht with h | h
                  · subst h
                    rw [hp, hr] at hbad
                    rcases hbad with hb | hb <;> cases hb
                  · exact h
                obtain ⟨er, her⟩ := ih (recs0 ++ [staleStep d u r])
                  (cnt0 + isStale u.expected r) (tot0 + 1) t htus hbad
                refine ⟨er, ?_⟩
                simp only [staleLoop, hp, hr]
                exact her

/-- Witness for `error_containment_amended` at one failing request. -/
theorem error_containment_amended_witness :
    (workerRun "A" 2 [⟨"GET", "perf-3", "node-a", 1, 2,
        Except.error PyErr.transport⟩]).length = 1 ∧
      (perfWorkerRec "A" 2 ⟨"GET", "perf-3", "node-a", 1, 2,
        Except.error PyErr.transport⟩).ok =
        (if exceptOk (Except.error (α := Unit) PyErr.transport) then 1 else 0) ∧
      ∃ er, runStalenessDelay 0 [trialEnvBad] = .error er :=
  ⟨error_containment_amended.1 "A" 2 _,
    error_containment_amended.2.1 "A" 2 _,
    error_containment_amended.2.2 0 [trialEnvBad] trialEnvBad
      (by decide) (by decide)⟩

lemma countP_eq_one_of_nodup :
    ∀ {l : List String}, l.Nodup → ∀ {b : String}, b ∈ l →
      l.countP (fun x => decide (x = b)) = 1 := by
  intro l
  induction l with
  | nil => intro _ b hb; cases hb
  | cons y ys ih =>
      intro hnd b hb
      have h1 : y ∉ ys := (List.nodup_cons.mp hnd).1
      have h2 : ys.Nodup := (List.nodup_cons.mp hnd).2
      rcases List.mem_cons.mp hb with h | h
      · subst h
        rw [List.countP_cons_of_pos _ _ (by simp)]
        have hz : ys.countP (fun x => decide (x = b)) = 0 := by
          rw [List.countP_eq_zero]
          intro x hx
          simp only [decide_eq_true_eq]
          intro he
          exact h1 (he ▸ hx)
        omega
      · have hyb : y ≠ b := fun he => h1 (he ▸ h)
        rw [List.countP_cons_of_neg _ _ (by simpa using hyb), ih h2 h]

lemma pairSamples_mem {tOff : ℚ} {digest : String → String} :
    ∀ (names : List String), ∀ s ∈ pairSamples tOff digest names,
      s.node_a ∈ names ∧ s.node_b ∈ names := by
  intro names
  induction names with
  | nil => intro s hs; cases hs
  | cons n1 rest ih =>
      intro s hs
      rcases List.mem_append.mp hs with h | h
      · obtain ⟨n2, hn2, he⟩ := List.mem_map.mp h
        rw [← he]
        exact ⟨List.mem_cons_self _ _, List.mem_cons_of_mem _ hn2⟩
      · obtain ⟨ha, hb⟩ := ih s h
        exact ⟨List.mem_cons_of_mem _ ha, List.mem_cons_of_mem _ hb⟩

lemma pairSamples_shape {tOff : ℚ} {digest : String → String} :
    ∀ (names : List String), ∀ s ∈ pairSamples tOff digest names,
      s.root_a = digest s.node_a ∧ s.root_b = digest s.node_b ∧
        (s.in_sync = 1 ↔ s.root_a = s.root_b) ∧ s.t_offset_s = tOff := by
  intro names
  induction names with
  | nil => intro s hs; cases hs
  | cons n1 rest ih =>
      intro s hs
      rcases List.mem_append.mp hs with h | h
      · obtain ⟨n2, hn2, he⟩ := List.mem_map.mp h
        rw [← he]
        refine ⟨rfl, rfl, ?_, rfl⟩
        by_cases hd : digest n1 = digest n2
        · simp [mkConvSample, hd]
        · simp [mkConvSample, hd]
      · exact ih s h

lemma pairSamples_distinct {tOff : ℚ} {digest : String → String} :
    ∀ (names : List String), names.Nodup →
      ∀ s ∈ pairSamples tOff digest names, s.node_a ≠ s.node_b := by
  intro names
  induction names with
  | nil => intro _ s hs; cases hs
  | cons n1 rest ih =>
      intro hnd s hs
      have h1 : n1 ∉ rest := (List.nodup_cons.mp hnd).1
      have h2 : rest.Nodup := (List.nodup_cons.mp hnd).2
      rcases List.mem_append.mp hs with h | h
      · obtain ⟨n2, hn2, he⟩ := List.mem_map.mp h
        rw [← he]
        intro hc
        have hc' : n1 = n2 := hc
        exact h1 (hc' ▸ hn2)
      · exact ih h2 s h

lemma pairSamples_count {tOff : ℚ} {digest : String → String} (a b : String) :
    ∀ (names : List String), names.Nodup → a ∈ names → b ∈ names → a ≠ b →
      (pairSamples tOff digest names).countP (pairPred a b) = 1 := by
  intro names
  induction names with
  | nil => intro _ ha; cases ha
  | cons n1 rest ih =>
      intro hnd ha hb hab
      have h1 : n1 ∉ rest := (List.nodup_cons.mp hnd).1
      have h2 : rest.Nodup := (List.nodup_cons.mp hnd).2
      show (rest.map (mkConvSample tOff digest n1) ++
        pairSamples tOff digest rest).countP (pairPred a b) = 1
      rw [List.countP_append, List.countP_map]
      rcases List.mem_cons.mp ha with ha1 | ha1
      · have hbrest : b ∈ rest := by
          rcases List.mem_cons.mp hb with h | h
          · exact absurd (ha1.trans h.symm) hab
          · exact h
        have hn1b : n1 ≠ b := fun he => h1 (he ▸ hbrest)
        have hhead : List.countP (pairPred a b ∘ mkConvSample tOff digest n1)
            rest = List.countP (fun x => decide (x = b)) rest := by
          apply List.countP_congr
          intro x _
          simp only [Function.comp, pairPred, mkConvSample, decide_eq_true_eq]
          constructor
          · rintro (⟨-, hxb⟩ | ⟨hnb, -⟩)
            · exact hxb
            · exact absurd hnb hn1b
          · intro hxb
            exact Or.inl ⟨ha1.symm, hxb⟩
        have htail : (pairSamples tOff digest rest).countP (pairPred a b) = 0 := by
          rw [List.countP_eq_zero]
          intro s hs
          obtain ⟨hsa, hsb⟩ := pairSamples_mem rest s hs
          simp only [pairPred, decide_eq_true_eq]
          rintro (⟨h3, -⟩ | ⟨-, h4⟩)
          · have : a ∈ rest := h3 ▸ hsa
            exact h1 (ha1 ▸ this)
          · have : a ∈ rest := h4 ▸ hsb
            exact h1 (ha1 ▸ this)
        rw [hhead, htail, countP_eq_one_of_nodup h2 hbrest]
      · rcases List.mem_cons.mp hb with hb1 | hb1
        · have hn1a : n1 ≠ a := fun he => h1 (he ▸ ha1)
          have hhead : List.countP (pairPred a b ∘ mkConvSample tOff digest n1)
              rest = List.countP (fun x => decide (x = a)) rest := by
            apply List.countP_congr
            intro x _
            simp only [Function.comp, pairPred, mkConvSample, decide_eq_true_eq]
            constructor
            · rintro (⟨hna, -⟩ | ⟨-, hxa⟩)
              · exact absurd hna hn1a
              · exact hxa
            · intro hxa
              exact Or.inr ⟨hb1.symm, hxa⟩
          have htail : (pairSamples tOff digest rest).countP (pairPred a b) = 0 := by
            rw [List.countP_eq_zero]
            intro s hs
            obtain ⟨hsa, hsb⟩ := pairSamples_mem rest s hs
            simp only [pairPred, decide_eq_true_eq]
            rintro (⟨-, h4⟩ | ⟨h3, -⟩)
            · have : b ∈ rest := h4 ▸ hsb
              exact h1 (hb1 ▸ this)
            · have : b ∈ rest := h3 ▸ hsa
              exact h1 (hb1 ▸ this)
          rw [hhead, htail, countP_eq_one_of_nodup h2 ha1]
        · have hn1a : n1 ≠ a := fun he => h1 (he ▸ ha1)
          have hn1b : n1 ≠ b := fun he => h1 (he ▸ hb1)
          have hhead : List.countP (pairPred a b ∘ mkConvSample tOff digest n1)
              rest = 0 := by
            rw [List.countP_eq_zero]
            intro x _
            simp only [Function.comp, pairPred, mkConvSample, decide_eq_true_eq]
            rintro (⟨hna, -⟩ | ⟨hnb, -⟩)
            · exact hn1a hna
            · exact hn1b hnb
          rw [hhead, ih h2 ha1 hb1 hab]

/-- C7.  Each observation iteration of the Convergence Probe emits, for
every unordered pair of distinct nodes, exactly one sample; every sample
carries the two nodes' fetched digests and the iteration's time offset,
with `in_sync = 1` iff the two digests are byte-equal; consequently, if
every node returns the identical digest, every emitted sample has
`in_sync = 1`. -/
theorem convergence_pairwise (tOff : ℚ) (digest : String → String)
    (names : List String) (hnd : names.Nodup) :
    (∀ a b, a ∈ names → b ∈ names → a ≠ b →
        (pairSamples tOff digest names).countP (pairPred a b) = 1) ∧
      (∀ s ∈ pairSamples tOff digest names,
        s.node_a ∈ names ∧ s.node_b ∈ names ∧ s.node_a ≠ s.node_b ∧
          s.root_a = digest s.node_a ∧ s.root_b = digest s.node_b ∧
          (s.in_sync = 1 ↔ s.root_a = s.root_b) ∧ s.t_offset_s = tOff) ∧
      ((∀ x y, digest x = digest y) →
        ∀ s ∈ pairSamples tOff digest names, s.in_sync = 1) := by
  refine ⟨?_, ?_, ?_⟩
  · intro a b ha hb hab
    exact pairSamples_count a b names hnd ha hb hab
  · intro s hs
    obtain ⟨hma, hmb⟩ := pairSamples_mem names s hs
    obtain ⟨hra, hrb, hsync, hto⟩ := pairSamples_shape names s hs
    exact ⟨hma, hmb, pairSamples_distinct names hnd s hs, hra, hrb, hsync, hto⟩
  · intro hall s hs
    obtain ⟨hra, hrb, hsync, -⟩ := pairSamples_shape names s hs
    exact hsync.mpr (by rw [hra, hrb]; exact hall _ _)

/-- Witness for `convergence_pairwise`: a 3-node cluster whose digests
are all identical yields exactly one sample per unordered pair. -/
theorem convergence_pairwise_witness :
    (pairSamples 0 (fun _ => "d3ad") ["node-a", "node-b", "node-c"]).countP
        (pairPred "node-a" "node-b") = 1 ∧
      (pairSamples 0 (fun _ => "d3ad") ["node-a", "node-b", "node-c"]).countP
        (pairPred "node-a" "node-c") = 1 ∧
      (pairSamples 0 (fun _ => "d3ad") ["node-a", "node-b", "node-c"]).countP
        (pairPred "node-b" "node-c") = 1 ∧
      ∀ s ∈ pairSamples 0 (fun _ => "d3ad") ["node-a", "node-b", "node-c"],
        s.in_sync = 1 := by
  have h := convergence_pairwise 0 (fun _ => "d3ad")
    ["node-a", "node-b", "node-c"] (by decide)
  exact ⟨h.1 "node-a" "node-b" (by decide) (by decide) (by decide),
    h.1 "node-a" "node-c" (by decide) (by decide) (by decide),
    h.1 "node-b" "node-c" (by decide) (by decide) (by decide),
    h.2.2 (fun x y => rfl)⟩

/-- C9.  Each SLO-probe iteration with class draw `x ∈ [0,1)` is tagged
"tight" with deadline 20 ms exactly on the half-measure region
`x < 1/2`, otherwise "relaxed" with deadline 100 ms (the uniform draw
makes this 50/50); the read carries the header `X-Deadline-Ms` with the
chosen deadline, the record is emitted whatever the outcome (`ok = 1`
iff status 200 or 404, else 0, latency recorded from the clock readings
either way), and a run emits exactly one record per iteration. -/
theorem slo_classification (e : SacEnv) (envs : List SacEnv)
    (h0 : 0 ≤ e.x) (h1 : e.x < 1) :
    (((sacIteration sloCONFIG e).1.klass = "tight" ∧
          (sacIteration sloCONFIG e).1.deadline_ms = 20) ∨
        ((sacIteration sloCONFIG e).1.klass = "relaxed" ∧
          (sacIteration sloCONFIG e).1.deadline_ms = 100)) ∧
      ¬(((sacIteration sloCONFIG e).1.klass = "tight") ∧
          ((sacIteration sloCONFIG e).1.klass = "relaxed")) ∧
      ((sacIteration sloCONFIG e).1.klass = "tight" ↔ 0 ≤ e.x ∧ e.x < 1 / 2) ∧
      (sacIteration sloCONFIG e).2 =
        ("X-Deadline-Ms", toString (sacIteration sloCONFIG e).1.deadline_ms) ∧
      ((sacIteration sloCONFIG e).1.ok = 1 ↔
        ∃ s, e.respStatus = .ok s ∧ (s = 200 ∨ s = 404)) ∧
      (sacIteration sloCONFIG e).1.latency_ms = (e.tEnd - e.tStart) * 1000 ∧
      (sacRun sloCONFIG envs).length = envs.length := by
  refine ⟨?_, ?_, ?_, rfl, ?_, rfl, by simp [sacRun]⟩
  · by_cases hx : e.x < 1 / 2
    · simp only [sacIteration, choose_deadline, if_pos hx]
      exact Or.inl ⟨trivial, rfl⟩
    · simp only [sacIteration, choose_deadline, if_neg hx]
      exact Or.inr ⟨trivial, rfl⟩
  · rintro ⟨ht, hr⟩
    rw [ht] at hr
    exact absurd hr (by decide)
  · by_cases hx : e.x < 1 / 2
    · simp only [sacIteration, choose_deadline, if_pos hx]
      exact ⟨fun _ => ⟨h0, hx⟩, fun _ => trivial⟩
    · simp only [sacIteration, choose_deadline, if_neg hx]
      exact ⟨fun hcon => absurd hcon (by decide), fun hand => absurd hand.2 hx⟩
  · cases hr : e.respStatus with
    | error er =>
        simp [sacIteration, hr]
    | ok s =>
        by_cases hs : s = 200 ∨ s = 404
        · simp [sacIteration, hr, hs]
        · simp [sacIteration, hr, hs]

/-- Witness for `slo_classification`: a draw x = 1/4 with a 200 response
is tagged tight with deadline 20 and header `X-Deadline-Ms: 20`. -/
theorem slo_classification_witness :
    (((sacIteration sloCONFIG ⟨1/4, "sac-1", "node-a", 1, 2,
            Except.ok 200⟩).1.klass = "tight" ∧
          (sacIteration sloCONFIG ⟨1/4, "sac-1", "node-a", 1, 2,
            Except.ok 200⟩).1.deadline_ms = 20) ∨
        ((sacIteration sloCONFIG ⟨1/4, "sac-1", "node-a", 1, 2,
            Except.ok 200⟩).1.klass = "relaxed" ∧
          (sacIteration sloCONFIG ⟨1/4, "sac-1", "node-a", 1, 2,
            Except.ok 200⟩).1.deadline_ms = 100)) ∧
      ¬(((sacIteration sloCONFIG ⟨1/4, "sac-1", "node-a", 1, 2,
            Except.ok 200⟩).1.klass = "tight") ∧
          ((sacIteration sloCONFIG ⟨1/4, "sac-1", "node-a", 1, 2,
            Except.ok 200⟩).1.klass = "relaxed")) ∧
      ((sacIteration sloCONFIG ⟨1/4, "sac-1", "node-a", 1, 2,
          Except.ok 200⟩).1.klass = "tight" ↔
        0 ≤ (1/4 : ℚ) ∧ (1/4 : ℚ) < 1 / 2) ∧
      (sacIteration sloCONFIG ⟨1/4, "sac-1", "node-a", 1, 2,
          Except.ok 200⟩).2 =
        ("X-Deadline-Ms", toString (sacIteration sloCONFIG ⟨1/4, "sac-1",
          "node-a", 1, 2, Except.ok 200⟩).1.deadline_ms) ∧
      ((sacIteration sloCONFIG ⟨1/4, "sac-1", "node-a", 1, 2,
          Except.ok 200⟩).1.ok = 1 ↔
        ∃ s, (Except.ok 200 : Except PyErr ℕ) = .ok s ∧ (s = 200 ∨ s = 404)) ∧
      (sacIteration sloCONFIG ⟨1/4, "sac-1", "node-a", 1, 2,
          Except.ok 200⟩).1.latency_ms = ((2 : ℚ) - 1) * 1000 ∧
      (sacRun sloCONFIG [⟨1/4, "sac-1", "node-a", 1, 2,
          Except.ok 200⟩]).length = 1 :=
  slo_classification ⟨1/4, "sac-1", "node-a", 1, 2, Except.ok 200⟩
    [⟨1/4, "sac-1", "node-a", 1, 2, Except.ok 200⟩]
    (by norm_num) (by norm_num)

/-- C10.  The client's read never returns `found = true` without a
decoded value: whenever `get` returns normally with `found = true` a
byte value is present; and each of the three listed response shapes —
HTTP 404, a 200 body with `found = false` (or missing), and a 200 body
with `found = true` but no `valueBase64` field — yields
`found = false, value = None` without raising. -/
theorem client_get_found_value (b64 : String → Option (List ℕ))
    (resp : Except PyErr (ℕ × Option GetBody)) (r : KvReadResult)
    (h : clientGet b64 resp = .ok r) :
    (r.found = true → ∃ v, r.value = some v) ∧
      (∀ parsed, clientGet b64 (.ok (404, parsed)) = .ok ⟨false, none, []⟩) ∧
      (∀ body : GetBody, body.found.getD false = false →
        clientGet b64 (.ok (200, some body)) = .ok ⟨false, none, []⟩) ∧
      (∀ body : GetBody, body.found = some true → body.valueBase64 = none →
        clientGet b64 (.ok (200, some body)) = .ok ⟨false, none, []⟩) := by
  refine ⟨?_, ?_, ?_, ?_⟩
  · intro hf
    cases resp with
    | error e => exact Except.noConfusion h
    | ok p =>
        obtain ⟨status, parsed⟩ := p
        simp only [clientGet] at h
        split at h
        · injection h with h2
          rw [← h2] at hf
          exact absurd hf (by decide)
        · split at h
          · exact Except.noConfusion h
          · split at h
            · exact Except.noConfusion h
            · split at h
              · injection h with h2
                rw [← h2] at hf
                exact absurd hf (by decide)
              · split at h
                · injection h with h2
                  rw [← h2] at hf
                  exact absurd hf (by decide)
                · split at h
                  · exact Except.noConfusion h
                  · injection h with h2
                    rw [← h2]
                    exact ⟨_, rfl⟩
  · intro parsed
    simp [clientGet]
  · intro body hfound
    simp [clientGet, hfound]
  · intro body hfound hvb
    simp [clientGet, hfound, hvb]

/-- Witness for `client_get_found_value`, applied to a 404 response with
a decoder that always fails. -/
theorem client_get_found_value_witness :
    (((⟨false, none, []⟩ : KvReadResult).found = true →
        ∃ v, (⟨false, none, []⟩ : KvReadResult).value = some v) ∧
      (∀ parsed, clientGet (fun _ => none) (.ok (404, parsed)) =
        .ok ⟨false, none, []⟩) ∧
      (∀ body : GetBody, body.found.getD false = false →
        clientGet (fun _ => none) (.ok (200, some body)) =
          .ok ⟨false, none, []⟩) ∧
      (∀ body : GetBody, body.found = some true → body.valueBase64 = none →
        clientGet (fun _ => none) (.ok (200, some body)) =
          .ok ⟨false, none, []⟩)) :=
  client_get_found_value (fun _ => none) (.ok (404, none))
    ⟨false, none, []⟩ rfl
